import Mathlib

/-!
Verification of the Terraform resource-graph subsystem of
DynamicCloudArquitect: the HCL reference scanner, dependency extraction,
entity extraction, the resource-graph store validation (containment rules,
circular-reference check), the dependency-edge store, the security-group
egress default and the HCL generator, shallowly embedded from
`src/BackEndApi/src/api/terraform/services/hcl_parser.py`,
`src/BackEndApi/src/api/terraform/models.py` and
`src/BackEndApi/src/api/terraform/serializers.py`.
-/

namespace DynCloud

/-- Python strings are modelled as lists of characters. -/
abbrev Str := List Char

/-- JSON-like configuration values (Python `dict` / `list` / `str` / `int` /
`bool` / `None`), the shape of `TerraformResource.configuration`. -/
inductive Value where
  | vStr  (s : Str)
  | vNum  (n : Int)
  | vBool (b : Bool)
  | vNull
  | vList (items : List Value)
  | vObj  (fields : List (Str × Value))

/-- Python `s.startswith(pre)` on character lists. -/
def strBeginsWith : Str → Str → Bool
  | _, [] => true
  | [], _ :: _ => false
  | c :: cs, p :: ps => c == p && strBeginsWith cs ps

/-- One-pass scanner equivalent to `re.findall` for the pattern used by
`HCLParser._find_references_in_dict` (a dollar sign, an opening brace, one
or more non-brace characters, a closing brace). The second argument is
`none` outside a candidate match and `some acc` after an opener, where
`acc` holds the reversed content scanned so far; an empty candidate is not
a match, exactly as the regex requires at least one non-brace character. -/
def scanMatches : Str → Option Str → List Str
  | [], _ => []
  | '$' :: '\x7b' :: rest, none => scanMatches rest (some [])
  | _ :: rest, none => scanMatches rest none
  | '\x7d' :: rest, some acc =>
    if acc = [] then scanMatches rest none
    else acc.reverse :: scanMatches rest none
  | c :: rest, some acc => scanMatches rest (some (c :: acc))

/-- All contents of interpolation markers found in a string, left to
right: `re.findall` of the reference pattern. -/
def findMatches (s : Str) : List Str := scanMatches s none

/-- Python `match.startswith(('var.', 'local.', 'data.'))`. -/
def isReservedRef (r : Str) : Bool :=
  strBeginsWith r "var.".data || strBeginsWith r "local.".data ||
    strBeginsWith r "data.".data

/-- Whether the two-character interpolation opener occurs in the string
(Python `'${' in data`). -/
def hasInterpStart : Str → Bool
  | '$' :: '\x7b' :: _ => true
  | _ :: rest => hasInterpStart rest
  | [] => false

/-- References found in one string leaf: the string case of
`HCLParser._find_references_in_dict` (guard on the opener and a closing
brace being present, then the regex matches minus reserved prefixes). -/
def stringRefs (s : Str) : List Str :=
  if hasInterpStart s && s.contains '\x7d' then
    (findMatches s).filter (fun m => !(isReservedRef m))
  else []

mutual

/-- `HCLParser._find_references_in_dict`, value dispatch: recurse through
mappings and sequences, scan string leaves, ignore other scalars. The
Python accumulator argument only ever appends, so the result is the
depth-first concatenation. -/
def findRefsV : Value → List Str
  | .vStr s => stringRefs s
  | .vNum _ => []
  | .vBool _ => []
  | .vNull => []
  | .vList items => findRefsL items
  | .vObj fields => findRefsF fields

/-- `HCLParser._find_references_in_dict` over the items of a list. -/
def findRefsL : List Value → List Str
  | [] => []
  | v :: rest => findRefsV v ++ findRefsL rest

/-- `HCLParser._find_references_in_dict` over the values of a mapping. -/
def findRefsF : List (Str × Value) → List Str
  | [] => []
  | (_, v) :: rest => findRefsV v ++ findRefsF rest

end

mutual

/-- The string leaves of a configuration value in depth-first order
(mapping values in order, then list items in order). -/
def leafStrings : Value → List Str
  | .vStr s => [s]
  | .vNum _ => []
  | .vBool _ => []
  | .vNull => []
  | .vList items => leafStringsL items
  | .vObj fields => leafStringsF fields

/-- Depth-first string leaves of a list of values. -/
def leafStringsL : List Value → List Str
  | [] => []
  | v :: rest => leafStrings v ++ leafStringsL rest

/-- Depth-first string leaves of the values of a mapping. -/
def leafStringsF : List (Str × Value) → List Str
  | [] => []
  | (_, v) :: rest => leafStrings v ++ leafStringsF rest

end

/-- Python `s.split(sep)` for a one-character separator. -/
def splitOnChar (sep : Char) : Str → List Str
  | [] => [[]]
  | c :: rest =>
    match splitOnChar sep rest with
    | [] => [[]]
    | h :: t => if c = sep then [] :: h :: t else (c :: h) :: t

/-- Python `ref.split('.')`. -/
def splitOnDot (s : Str) : List Str := splitOnChar '.' s

/-- Python f-string `"{a}.{b}"`. -/
def dotJoin (a b : Str) : Str := a ++ '.' :: b

/-- A flattened entity record as produced by `HCLParser._extract_resources`
and `HCLParser._extract_data_sources`. The configuration is the coerced
mapping (a Python dict). -/
structure ResourceRec where
  resource_type : Str
  resource_name : Str
  configuration : List (Str × Value)
  file_path : Str
  terraform_address : Str

/-- Python `config if isinstance(config, dict) else {}`. -/
def coerceConfig : Value → List (Str × Value)
  | .vObj fields => fields
  | _ => []

/-- One parsed HCL block keyword group for resources and data sources:
`resource_type -> [ { resource_name -> body } ]`. -/
abbrev HclInstance := List (Str × Value)
abbrev HclBlock := List (Str × List HclInstance)

/-- `HCLParser._extract_resources`. -/
def extractResources (resources_data : List HclBlock) (file_path : Str) :
    List ResourceRec :=
  resources_data.flatMap (fun resource_block =>
    resource_block.flatMap (fun (resource_type, instances) =>
      instances.flatMap (fun inst =>
        inst.map (fun (resource_name, config) =>
          { resource_type := resource_type
            resource_name := resource_name
            configuration := coerceConfig config
            file_path := file_path
            terraform_address := dotJoin resource_type resource_name }))))

/-- `HCLParser._extract_data_sources`. -/
def extractDataSources (data_sources_data : List HclBlock) (file_path : Str) :
    List ResourceRec :=
  data_sources_data.flatMap (fun data_block =>
    data_block.flatMap (fun (data_type, instances) =>
      instances.flatMap (fun inst =>
        inst.map (fun (data_name, config) =>
          { resource_type := "data.".data ++ data_type
            resource_name := data_name
            configuration := coerceConfig config
            file_path := file_path
            terraform_address :=
              "data.".data ++ dotJoin data_type data_name }))))

/-- `HCLParser.extract_dependencies`: for each resource, scan its
configuration for references and keep the first two dot components of every
reference that has at least two of them, tagging the edge `implicit`. -/
def extractDependencies (resources : List ResourceRec) :
    List (Str × Str × Str) :=
  resources.flatMap (fun resource =>
    (findRefsF resource.configuration).filterMap (fun ref =>
      match splitOnDot ref with
      | p0 :: p1 :: _ => some (resource.terraform_address, dotJoin p0 p1,
          "implicit".data)
      | _ => none))

/-- `TerraformResource.CONTAINER_RULES`: parent resource type to the list
of resource types it may directly contain, in source order. -/
def CONTAINER_RULES : List (Str × List Str) :=
  [("aws_account".data,
      ["aws_vpc".data, "aws_s3_bucket".data, "aws_iam_role".data,
       "aws_iam_policy".data, "aws_cloudwatch_log_group".data,
       "aws_sns_topic".data, "aws_sqs_queue".data]),
   ("aws_vpc".data,
      ["aws_subnet".data, "aws_internet_gateway".data,
       "aws_nat_gateway".data, "aws_vpn_gateway".data,
       "aws_security_group".data]),
   ("aws_subnet".data,
      ["aws_instance".data, "aws_db_instance".data,
       "aws_elasticache_cluster".data, "aws_efs_mount_target".data,
       "aws_lambda_function".data]),
   ("aws_autoscaling_group".data, ["aws_instance".data]),
   ("aws_ecs_cluster".data, ["aws_ecs_service".data]),
   ("aws_ecs_service".data, ["aws_ecs_task_definition".data])]

/-- `TerraformResource.REQUIRES_PARENT`: resource types that must have a
parent. -/
def REQUIRES_PARENT : List Str :=
  ["aws_instance".data, "aws_db_instance".data, "aws_db_subnet_group".data,
   "aws_elasticache_cluster".data, "aws_lambda_function".data,
   "aws_efs_mount_target".data]

/-- Python `self.CONTAINER_RULES.get(parent_type, [])`. -/
def allowedChildren (parent_type : Str) : List Str :=
  match CONTAINER_RULES.find? (fun kv => kv.1 == parent_type) with
  | some kv => kv.2
  | none => []

/-- `TerraformResource._get_valid_parent_types`: the parent types whose
allowed-children list contains this resource type, in ruleset order. -/
def validParentTypes (resource_type : Str) : List Str :=
  (CONTAINER_RULES.filter (fun kv => kv.2.contains resource_type)).map (·.1)

/-- A persisted `TerraformResource` row, restricted to the fields the
containment and egress logic reads. Primary keys are modelled as naturals
standing for the UUIDs. -/
structure ResourceRow where
  id : Nat
  resource_type : Str
  parent : Option Nat
  configuration : List (Str × Value)

/-- The persisted resource table. -/
abbrev Store := List ResourceRow

/-- Database lookup of a row by primary key. -/
def findRow (s : Store) (x : Nat) : Option ResourceRow :=
  s.find? (fun r => r.id == x)

/-- The stored `parent_resource` pointer of a row (none when the row is
absent or has no parent). -/
def parentOf (s : Store) (x : Nat) : Option Nat :=
  match findRow s x with
  | some r => r.parent
  | none => none

/-- The primary keys present in the store. -/
def keys (s : Store) : List Nat := s.map (·.id)

/-- `TerraformResource._check_circular_reference`: walk the proposed
ancestor chain with a visited set seeded with the instance's own id;
`false` is the `ValidationError`. The fuel only bounds the loop so the
model is total; callers pass `s.length + 1`, enough to traverse any chain
of an acyclic store. -/
def walkCheck (s : Store) : Nat → List Nat → Option Nat → Bool
  | _, _, none => true
  | 0, _, some _ => false
  | fuel + 1, visited, some c =>
    if c ∈ visited then false
    else walkCheck s fuel (c :: visited) (parentOf s c)

/-- The validation failures of `TerraformResource.clean` and of the insert
itself. `parentNotFound` is a modelling artifact: in Django the parent is
a foreign-key object which necessarily exists; `duplicateId` is the
database primary-key constraint. -/
inductive CreateErr where
  | missingParent (validParents : List Str)
  | badContainment (parent_type : Str) (allowed : List Str)
  | circular
  | parentNotFound (p : Nat)
  | duplicateId (i : Nat)
  | notFound (i : Nat)

/-- `TerraformResource.clean` run against store `s` for a proposed row:
requires-parent rule, then parent/child compatibility, then the circular
reference walk. Returns the first validation error, if any. -/
def cleanRow (s : Store) (row : ResourceRow) : Option CreateErr :=
  if row.resource_type ∈ REQUIRES_PARENT ∧ row.parent = none then
    some (.missingParent (validParentTypes row.resource_type))
  else
    match row.parent with
    | none => none
    | some p =>
      match findRow s p with
      | none => some (.parentNotFound p)
      | some prow =>
        if row.resource_type ∈ allowedChildren prow.resource_type then
          if walkCheck s (s.length + 1) [row.id] row.parent then none
          else some .circular
        else some (.badContainment prow.resource_type
          (allowedChildren prow.resource_type))

/-- Creation through the serializer: `validate` runs `clean` on a fresh
instance, then the row is inserted (primary-key uniqueness enforced by the
database). -/
def createResource (s : Store) (row : ResourceRow) : Except CreateErr Store :=
  match cleanRow s row with
  | some e => .error e
  | none =>
    if row.id ∈ keys s then .error (.duplicateId row.id)
    else .ok (row :: s)

/-- Overwrite the row whose id matches `row.id` (`instance.save()` on an
existing row). -/
def setRow (s : Store) (row : ResourceRow) : Store :=
  s.map (fun r => if r.id = row.id then row else r)

/-- Update through the serializer: `validate` builds an instance carrying
the existing id and the new attributes, runs `clean` against the stored
graph, then saves. -/
def updateResource (s : Store) (row : ResourceRow) : Except CreateErr Store :=
  if row.id ∈ keys s then
    match cleanRow s row with
    | some e => .error e
    | none => .ok (setRow s row)
  else .error (.notFound row.id)

/-- Resource stores reachable through validated creates and updates. -/
inductive ReachableS : Store → Prop where
  | empty : ReachableS []
  | create {s s' : Store} {row : ResourceRow} :
      ReachableS s → createResource s row = .ok s' → ReachableS s'
  | update {s s' : Store} {row : ResourceRow} :
      ReachableS s → updateResource s row = .ok s' → ReachableS s'

/-- A stored dependency edge (`ResourceDependency`), from/to are resource
primary keys. -/
structure DepEdge where
  fromId : Nat
  toId : Nat
  depType : Str
deriving DecidableEq, Repr

/-- Rejections of a dependency insert: `ResourceDependency.clean` raises on
a self dependency, and the `unique_together` constraint on
`(from_resource, to_resource)` rejects a duplicate pair. -/
inductive DepErr where
  | selfDependency
  | duplicateEdge
deriving DecidableEq, Repr

/-- Validated insertion of a dependency edge. -/
def addDependency (es : List DepEdge) (a b : Nat) (t : Str) :
    Except DepErr (List DepEdge) :=
  if a = b then .error .selfDependency
  else if es.any (fun e => e.fromId == a && e.toId == b) then
    .error .duplicateEdge
  else .ok ({ fromId := a, toId := b, depType := t } :: es)

/-- Dependency-edge sets reachable through validated insertions. -/
inductive ReachableD : List DepEdge → Prop where
  | empty : ReachableD []
  | add {es es' : List DepEdge} {a b : Nat} {t : Str} :
      ReachableD es → addDependency es a b t = .ok es' → ReachableD es'

/-- Python truthiness of a JSON value, as used by
`not configuration['egress']`. -/
def pyTruthy : Value → Bool
  | .vStr s => !s.isEmpty
  | .vNum n => n != 0
  | .vBool b => b
  | .vNull => false
  | .vList items => !items.isEmpty
  | .vObj fields => !fields.isEmpty

/-- Python `d[k]` lookup (first binding; Python dict keys are unique). -/
def lookupField (fields : List (Str × Value)) (k : Str) : Option Value :=
  match fields.find? (fun kv => kv.1 == k) with
  | some kv => some kv.2
  | none => none

/-- Python `d[k] = v`: replace the binding in place if the key is present,
otherwise append it. -/
def setField (fields : List (Str × Value)) (k : Str) (v : Value) :
    List (Str × Value) :=
  if fields.any (fun kv => kv.1 == k) then
    fields.map (fun kv => if kv.1 == k then (k, v) else kv)
  else fields ++ [(k, v)]

/-- The default egress rule injected by
`TerraformResourceSerializer.create`: one entry allowing all outbound
traffic. -/
def defaultEgress : Value :=
  .vList [.vObj
    [("protocol".data, .vStr "-1".data),
     ("cidr_blocks".data, .vList [.vStr "0.0.0.0/0".data]),
     ("description".data,
        .vStr "Allow all outbound traffic (AWS default)".data)]]

/-- The egress-injection step of `TerraformResourceSerializer.create`:
if no `egress` key is present, or its value is falsy, set the default
egress list. (`instance.configuration or \x7b\x7d` is the identity here: a
falsy dict is the empty dict.) -/
def injectDefaultEgress (cfg : List (Str × Value)) : List (Str × Value) :=
  match lookupField cfg "egress".data with
  | none => setField cfg "egress".data defaultEgress
  | some v =>
    if pyTruthy v then cfg else setField cfg "egress".data defaultEgress

/-- `TerraformResourceSerializer.create`: validated model create, then for
`aws_security_group` rows the egress default is injected into the stored
configuration and saved. -/
def serializerCreate (s : Store) (row : ResourceRow) :
    Except CreateErr Store :=
  match createResource s row with
  | .error e => .error e
  | .ok s' =>
    if row.resource_type = "aws_security_group".data then
      .ok (setRow s' { row with configuration := injectDefaultEgress row.configuration })
    else .ok s'

/-- Updates go through the default `ModelSerializer.update`: validated,
with no egress injection. -/
def serializerUpdate (s : Store) (row : ResourceRow) :
    Except CreateErr Store :=
  updateResource s row

/-- The stored configuration of a row. -/
def configOf (s : Store) (x : Nat) : Option (List (Str × Value)) :=
  (findRow s x).map (·.configuration)

/-- Python `d.get(k, dflt)`. -/
def getField (fields : List (Str × Value)) (k : Str) (dflt : Value) : Value :=
  (lookupField fields k).getD dflt

/-- A record emitted by `HCLParser._extract_variables`. Attribute values
are kept as raw JSON values; a missing `default` is Python `None`. -/
structure VariableRec where
  name : Str
  var_type : Value
  description : Value
  default_value : Value
  sensitive : Value
  file_path : Str

/-- A record emitted by `HCLParser._extract_outputs`. -/
structure OutputRec where
  name : Str
  value : Value
  description : Value
  sensitive : Value
  file_path : Str

/-- A record emitted by `HCLParser._extract_providers`. -/
structure ProviderRec where
  name : Str
  provider_alias : Value
  region : Value
  version : Value
  configuration : List (Str × Value)
  file_path : Str

/-- A record emitted by `HCLParser._extract_modules`. -/
structure ModuleRec where
  name : Str
  source : Value
  version : Value
  configuration : List (Str × Value)
  file_path : Str

/-- A parsed block group of name-to-body pairs (variables, outputs,
modules). -/
abbrev NamedBlock := List (Str × Value)

/-- A parsed provider block group: provider name to its list of
configurations. -/
abbrev ProviderBlock := List (Str × List Value)

/-- `HCLParser._extract_variables`: non-mapping bodies are skipped. -/
def extractVariables (variables_data : List NamedBlock) (fp : Str) :
    List VariableRec :=
  variables_data.flatMap (fun var_block =>
    var_block.filterMap (fun (var_name, config) =>
      match config with
      | .vObj fields =>
        some { name := var_name,
               var_type := getField fields "type".data (.vStr "string".data),
               description := getField fields "description".data (.vStr "".data),
               default_value := getField fields "default".data .vNull,
               sensitive := getField fields "sensitive".data (.vBool false),
               file_path := fp }
      | _ => none))

/-- `HCLParser._extract_outputs`. -/
def extractOutputs (outputs_data : List NamedBlock) (fp : Str) :
    List OutputRec :=
  outputs_data.flatMap (fun output_block =>
    output_block.filterMap (fun (output_name, config) =>
      match config with
      | .vObj fields =>
        some { name := output_name,
               value := getField fields "value".data .vNull,
               description := getField fields "description".data (.vStr "".data),
               sensitive := getField fields "sensitive".data (.vBool false),
               file_path := fp }
      | _ => none))

/-- `HCLParser._extract_providers`. -/
def extractProviders (providers_data : List ProviderBlock) (fp : Str) :
    List ProviderRec :=
  providers_data.flatMap (fun provider_block =>
    provider_block.flatMap (fun (provider_name, configs) =>
      configs.filterMap (fun config =>
        match config with
        | .vObj fields =>
          some { name := provider_name,
                 provider_alias := getField fields "alias".data (.vStr "".data),
                 region := getField fields "region".data (.vStr "".data),
                 version := getField fields "version".data (.vStr "".data),
                 configuration := fields,
                 file_path := fp }
        | _ => none)))

/-- `HCLParser._extract_modules`. -/
def extractModules (modules_data : List NamedBlock) (fp : Str) :
    List ModuleRec :=
  modules_data.flatMap (fun module_block =>
    module_block.filterMap (fun (module_name, config) =>
      match config with
      | .vObj fields =>
        some { name := module_name,
               source := getField fields "source".data (.vStr "".data),
               version := getField fields "version".data (.vStr "".data),
               configuration := fields,
               file_path := fp }
      | _ => none))

/-- The typed intermediate representation of one parsed file: the keyword
sections that may be present in the `hcl2.load` result. -/
structure ParsedFile where
  resource_blocks : Option (List HclBlock)
  data_blocks : Option (List HclBlock)
  variable_blocks : Option (List NamedBlock)
  output_blocks : Option (List NamedBlock)
  provider_blocks : Option (List ProviderBlock)
  module_blocks : Option (List NamedBlock)
  terraform_blocks : Option (List Value)

/-- One `.tf` file of a project: its path, and the outcome of running
`hcl2.load` on its text (either the parsed representation or the message
of the exception raised). -/
structure TfFile where
  path : Str
  raw : Except Str ParsedFile

/-- `HCLParser.parse_file`: wraps any underlying failure in a
`ValueError` message carrying the file path. -/
def parseFile (f : TfFile) : Except Str ParsedFile :=
  match f.raw with
  | .ok parsed => .ok parsed
  | .error e => .error ("Error parsing ".data ++ f.path ++ ": ".data ++ e)

/-- The aggregate returned by `HCLParser.parse_project`. -/
structure ParseResult where
  resources : List ResourceRec
  data_sources : List ResourceRec
  variable_recs : List VariableRec
  outputs : List OutputRec
  providers : List ProviderRec
  modules : List ModuleRec
  terraform : Value

/-- The accumulators of `parse_project` before any file is processed. -/
def emptyParseResult : ParseResult :=
  { resources := [], data_sources := [], variable_recs := [], outputs := [],
    providers := [], modules := [], terraform := .vObj [] }

/-- Whether the underlying parse of a file succeeds. -/
def rawOk (f : TfFile) : Bool :=
  match f.raw with
  | .ok _ => true
  | .error _ => false

/-- The line printed to stdout for a failing file
(`print` inside the `except` arm of `parse_project`, whose message wraps
the `parse_file` message again). -/
def fileFailLog (f : TfFile) : Str :=
  match parseFile f with
  | .error e => "Error parsing ".data ++ f.path ++ ": ".data ++ e
  | .ok _ => []

/-- One iteration of the `parse_project` loop: on failure, print and
continue; on success, extend each accumulator, the terraform block being
overwritten rather than extended. -/
def parseProjectStep (acc : ParseResult × List Str) (f : TfFile) :
    ParseResult × List Str :=
  match parseFile f with
  | .error _ => (acc.1, acc.2 ++ [fileFailLog f])
  | .ok parsed =>
    ({ resources := acc.1.resources ++
         (match parsed.resource_blocks with
          | some d => extractResources d f.path
          | none => []),
       data_sources := acc.1.data_sources ++
         (match parsed.data_blocks with
          | some d => extractDataSources d f.path
          | none => []),
       variable_recs := acc.1.variable_recs ++
         (match parsed.variable_blocks with
          | some d => extractVariables d f.path
          | none => []),
       outputs := acc.1.outputs ++
         (match parsed.output_blocks with
          | some d => extractOutputs d f.path
          | none => []),
       providers := acc.1.providers ++
         (match parsed.provider_blocks with
          | some d => extractProviders d f.path
          | none => []),
       modules := acc.1.modules ++
         (match parsed.module_blocks with
          | some d => extractModules d f.path
          | none => []),
       terraform :=
         match parsed.terraform_blocks with
         | some l => (match l with | [] => .vObj [] | t :: _ => t)
         | none => acc.1.terraform }, acc.2)

/-- The `parse_project` loop over the project files. -/
def parseProjectAux (acc : ParseResult × List Str) :
    List TfFile → ParseResult × List Str
  | [] => acc
  | f :: rest => parseProjectAux (parseProjectStep acc f) rest

/-- `HCLParser.parse_project`: the aggregate dict returned to the caller,
paired with the lines printed to stdout along the way. -/
def parseProject (files : List TfFile) : ParseResult × List Str :=
  parseProjectAux (emptyParseResult, []) files

/-- Decimal digit character, as produced by Python `str` on integers. -/
def digitChar (d : Nat) : Char :=
  match d with
  | 0 => '0' | 1 => '1' | 2 => '2' | 3 => '3' | 4 => '4'
  | 5 => '5' | 6 => '6' | 7 => '7' | 8 => '8' | _ => '9'

/-- Decimal digits, fuelled so that the definition is structurally
recursive; any fuel above the number of digits gives the same result. -/
def natDigitsAux : Nat → Nat → Str
  | 0, _ => []
  | fuel + 1, n =>
    if n < 10 then [digitChar n]
    else natDigitsAux fuel (n / 10) ++ [digitChar (n % 10)]

/-- Decimal digits of a natural number (Python `str(n)` for `n >= 0`). -/
def natDigits (n : Nat) : Str := natDigitsAux (n + 1) n

/-- Python `str` on an integer. -/
def intChars (n : Int) : Str :=
  if n < 0 then '-' :: natDigits n.natAbs else natDigits n.toNat

/-- Python `sep.join(items)`. -/
def joinSep (sep : Str) : List Str → Str
  | [] => []
  | [x] => x
  | x :: rest => x ++ sep ++ joinSep sep rest

mutual

/-- `HCLParser._format_hcl_value`: booleans lowercase, strings quoted,
numbers bare, lists bracketed and comma separated, mappings brace wrapped;
anything else falls through to generic `str(value)`, which for the only
remaining value, Python `None`, yields the bare text `None`. -/
def formatHclValue : Value → Str
  | .vBool b => if b then "true".data else "false".data
  | .vStr s => '"' :: (s ++ ['"'])
  | .vNum n => intChars n
  | .vList items => '[' :: (joinSep ", ".data (formatHclList items) ++ [']'])
  | .vObj fields =>
    "\x7b\n    ".data ++ (joinSep "\n    ".data (formatHclFields fields) ++
      "\n  \x7d".data)
  | .vNull => "None".data

/-- Formatted items of a list value. -/
def formatHclList : List Value → List Str
  | [] => []
  | v :: rest => formatHclValue v :: formatHclList rest

/-- Formatted `k = v` lines of a mapping value. -/
def formatHclFields : List (Str × Value) → List Str
  | [] => []
  | (k, v) :: rest => (k ++ " = ".data ++ formatHclValue v) :: formatHclFields rest

end

/-- `HCLParser.generate_hcl_from_resources`: one resource block per record,
with one `key = value` line per configuration attribute. -/
def generateHclFromResources (resources : List ResourceRec) : Str :=
  (resources.map (fun resource =>
    "resource \"".data ++ resource.resource_type ++ "\" \"".data ++
      resource.resource_name ++ "\" \x7b\n".data ++
      (resource.configuration.flatMap (fun (key, value) =>
        "  ".data ++ key ++ " = ".data ++ formatHclValue value ++ "\n".data)) ++
      "\x7d\n\n".data)).foldr (fun block acc => block ++ acc) []

/-- Modelled from the spec wording of the reference scanner (claim C3):
matches are additionally dropped unless they have at least two dot
components, and the reserved check is on the first dot component. Used
only to compare the claimed behaviour with the code's. -/
def firstComponentReserved (m : Str) : Bool :=
  match splitOnDot m with
  | c :: _ => c == "var".data || c == "local".data || c == "data".data
  | [] => false

/-- Modelled from the spec wording of the reference scanner (claim C3). -/
def claimedScannerRefs (v : Value) : List Str :=
  (leafStrings v).flatMap (fun s =>
    (findMatches s).filter (fun m =>
      decide (2 ≤ (splitOnDot m).length) && !(firstComponentReserved m)))

/-- The first two dot components of a reference joined by a dot (the
argument is only used under the at-least-two-components filter). -/
def firstTwoAddress (ref : Str) : Str :=
  match splitOnDot ref with
  | p0 :: p1 :: _ => dotJoin p0 p1
  | _ => ref

/-- The primary keys of a store are pairwise distinct (database primary
key constraint). -/
def NodupKeys (s : Store) : Prop := (keys s).Nodup

/-- Every stored parent pointer refers to a stored row (database foreign
key constraint). -/
def ParentsOk (s : Store) : Prop :=
  ∀ r ∈ s, ∀ p, r.parent = some p → p ∈ keys s

/-- `b` is reachable from `a` by following zero or more stored parent
pointers. -/
inductive reaches (s : Store) : Nat → Nat → Prop where
  | refl (a : Nat) : reaches s a a
  | step (a c b : Nat) (h1 : parentOf s a = some c) (h2 : reaches s c b) :
      reaches s a b

/-- `z` is its own proper ancestor: its parent chain returns to it. -/
def SelfAnc (s : Store) (z : Nat) : Prop :=
  ∃ c, parentOf s z = some c ∧ reaches s c z

/-- The parent chain from `cur` reaches a null parent without ever
visiting `x`. -/
inductive AvoidChain (s : Store) (x : Nat) : Option Nat → Prop where
  | nil : AvoidChain s x none
  | cons (c : Nat) (hne : c ≠ x) (htail : AvoidChain s x (parentOf s c)) :
      AvoidChain s x (some c)

/-- Whether the parent chain from `cur` reaches null within `fuel`
steps. -/
def reachesNone (s : Store) : Nat → Option Nat → Bool
  | _, none => true
  | 0, some _ => false
  | fuel + 1, some c => reachesNone s fuel (parentOf s c)

/-- The three store invariants preserved by validated creates and
updates. -/
def StoreInv (s : Store) : Prop :=
  NodupKeys s ∧ ParentsOk s ∧ ∀ z, ¬ SelfAnc s z

/-- The keys of the store not yet visited by a walk. -/
def countNotIn (s : Store) (seen : List Nat) : Nat :=
  ((keys s).filter (fun k => decide (k ∉ seen))).length

/-- A project file that parses to one vpc resource. -/
def demoGoodFile : TfFile :=
  { path := "main.tf".data,
    raw := .ok
      { resource_blocks := some
          [[("aws_vpc".data,
              [[("main".data,
                  .vObj [("cidr_block".data, .vStr "10.0.0.0/16".data)])]])]],
        data_blocks := none, variable_blocks := none, output_blocks := none,
        provider_blocks := none, module_blocks := none,
        terraform_blocks := none } }

/-- A project file whose parse raises. -/
def demoBadFile : TfFile :=
  { path := "broken.tf".data, raw := .error "Unexpected token".data }

/-- A stored vpc row used in the claim C2 witness. -/
def vpcRow0 : ResourceRow :=
  { id := 0, resource_type := "aws_vpc".data, parent := none,
    configuration := [] }

/-- A stored subnet row contained in the vpc, used in the claim C2
witness. -/
def subnetRow1 : ResourceRow :=
  { id := 1, resource_type := "aws_subnet".data, parent := some 0,
    configuration := [] }

/-- A two-row store built by two validated creates. -/
def demoStore2 : Store := [subnetRow1, vpcRow0]

mutual

/-- The scanner output is the concatenation of the per-leaf matches, over
the string leaves in depth-first order. -/
theorem findRefsV_eq_leaves :
    ∀ v : Value, findRefsV v = (leafStrings v).flatMap stringRefs
  | .vStr s => by simp [findRefsV, leafStrings]
  | .vNum _ => by simp [findRefsV, leafStrings]
  | .vBool _ => by simp [findRefsV, leafStrings]
  | .vNull => by simp [findRefsV, leafStrings]
  | .vList items => by
    rw [findRefsV, leafStrings]; exact findRefsL_eq_leaves items
  | .vObj fields => by
    rw [findRefsV, leafStrings]; exact findRefsF_eq_leaves fields

/-- List-of-values case of `findRefsV_eq_leaves`. -/
theorem findRefsL_eq_leaves :
    ∀ l : List Value, findRefsL l = (leafStringsL l).flatMap stringRefs
  | [] => by simp [findRefsL, leafStringsL]
  | v :: rest => by
    rw [findRefsL, leafStringsL, List.flatMap_append,
      findRefsV_eq_leaves v, findRefsL_eq_leaves rest]

/-- Mapping case of `findRefsV_eq_leaves`. -/
theorem findRefsF_eq_leaves :
    ∀ l : List (Str × Value), findRefsF l = (leafStringsF l).flatMap stringRefs
  | [] => by simp [findRefsF, leafStringsF]
  | (_, v) :: rest => by
    rw [findRefsF, leafStringsF, List.flatMap_append,
      findRefsV_eq_leaves v, findRefsF_eq_leaves rest]

end


/-- The per-resource body of `extract_dependencies` keeps exactly the
references with at least two dot components, one tuple each. -/
theorem depEdges_filter_shape (addr : Str) : ∀ refs : List Str,
    (refs.filterMap (fun ref =>
      match splitOnDot ref with
      | p0 :: p1 :: _ => some (addr, dotJoin p0 p1, "implicit".data)
      | _ => none)) =
    (refs.filter (fun ref => decide (2 ≤ (splitOnDot ref).length))).map
      (fun ref => (addr, firstTwoAddress ref, "implicit".data)) := by
  intro refs
  induction refs with
  | nil => rfl
  | cons ref rest ih =>
    simp only [List.filterMap_cons, List.filter_cons]
    cases h : splitOnDot ref with
    | nil => simpa [h] using ih
    | cons p0 t =>
      cases t with
      | nil => simpa [h] using ih
      | cons p1 t2 =>
        simp [h, ih, firstTwoAddress, List.filter_cons]

/-- With enough fuel the digit string starts with a digit character. -/
theorem natDigitsAux_head : ∀ fuel n, n < fuel →
    ∃ d t, natDigitsAux fuel n = digitChar d :: t := by
  intro fuel
  induction fuel with
  | zero => intro n h; omega
  | succ fuel ih =>
    intro n h
    by_cases h10 : n < 10
    · exact ⟨n, [], by simp [natDigitsAux, h10]⟩
    · have hdiv : n / 10 < fuel := by
        have := Nat.div_lt_self (show 0 < n by omega) (show 1 < 10 by omega)
        omega
      obtain ⟨d, t, ht⟩ := ih (n / 10) hdiv
      exact ⟨d, t ++ [digitChar (n % 10)], by simp [natDigitsAux, h10, ht]⟩

/-- Digit characters are never the letter that starts `None`. -/
theorem digitChar_ne_N : ∀ d, digitChar d ≠ 'N' := by
  intro d
  rcases d with _|_|_|_|_|_|_|_|_|d <;> simp [digitChar]

/-- Python `str` of an integer never equals the text `None`. -/
theorem intChars_ne_None : ∀ n : Int, intChars n ≠ "None".data := by
  intro n
  unfold intChars
  by_cases h : n < 0
  · simp only [if_pos h]
    intro heq
    have hh := congrArg List.head? heq
    rw [List.head?_cons, List.head?_cons] at hh
    exact absurd (Option.some.inj hh) (by decide)
  · simp only [if_neg h]
    obtain ⟨d, t, ht⟩ := natDigitsAux_head (n.toNat + 1) n.toNat (by omega)
    unfold natDigits
    rw [ht]
    intro heq
    have hh := congrArg List.head? heq
    rw [List.head?_cons, List.head?_cons] at hh
    exact absurd (Option.some.inj hh) (digitChar_ne_N d)

/-- Only the fallback branch of the formatter can produce the bare text
`None`: every dedicated branch starts with a different character. -/
theorem formatHclValue_eq_None_iff :
    ∀ v : Value, formatHclValue v = "None".data ↔ v = .vNull := by
  intro v
  constructor
  · intro heq
    cases v with
    | vNull => rfl
    | vBool b =>
      cases b <;> simp [formatHclValue] at heq
    | vStr s =>
      rw [formatHclValue] at heq
      have hh := congrArg List.head? heq
      rw [List.head?_cons, List.head?_cons] at hh
      exact absurd (Option.some.inj hh) (by decide)
    | vNum n => exact absurd heq (intChars_ne_None n)
    | vList items =>
      rw [formatHclValue] at heq
      have hh := congrArg List.head? heq
      rw [List.head?_cons, List.head?_cons] at hh
      exact absurd (Option.some.inj hh) (by decide)
    | vObj fields =>
      rw [formatHclValue] at heq
      have h2 : "\x7b\n    ".data = '\x7b' :: "\n    ".data := rfl
      rw [h2, List.cons_append] at heq
      have hh := congrArg List.head? heq
      rw [List.head?_cons, List.head?_cons] at hh
      exact absurd (Option.some.inj hh) (by decide)
  · intro h
    rw [h]
    rfl

/-- Invariants of every reachable dependency-edge set: no self edges and
at most one edge per ordered pair. -/
theorem reachableD_invariants {es : List DepEdge} (h : ReachableD es) :
    (∀ e ∈ es, e.fromId ≠ e.toId) ∧
    (es.map (fun e => (e.fromId, e.toId))).Nodup := by
  induction h with
  | empty => exact ⟨by simp, by simp⟩
  | add hprev hadd ih =>
    rename_i es0 es' a b t
    unfold addDependency at hadd
    split_ifs at hadd with hab hdup
    cases hadd
    constructor
    · intro e he
      rcases List.mem_cons.mp he with he | he
      · rw [he]; exact hab
      · exact ih.1 e he
    · rw [List.map_cons, List.nodup_cons]
      refine ⟨?_, ih.2⟩
      intro hmem
      apply hdup
      rw [List.any_eq_true]
      obtain ⟨e, he, hpair⟩ := List.mem_map.mp hmem
      have h1 : e.fromId = a := congrArg Prod.fst hpair
      have h2 : e.toId = b := congrArg Prod.snd hpair
      exact ⟨e, he, by simp [h1, h2]⟩

/-- Claim C5: in every dependency-edge set reachable through validated
insertions, every edge relates two distinct resources and at most one edge
exists per ordered pair; inserting a self edge or a duplicate pair is
rejected rather than stored. -/
theorem claim_C5_edge_set_invariants :
    (∀ es : List DepEdge, ReachableD es →
      (∀ e ∈ es, e.fromId ≠ e.toId) ∧
      (es.map (fun e => (e.fromId, e.toId))).Nodup)
    ∧ (∀ (es : List DepEdge) (a b : Nat) (t : Str), a ≠ b →
        (∃ e ∈ es, e.fromId = a ∧ e.toId = b) →
        addDependency es a b t = .error .duplicateEdge)
    ∧ (∀ (es : List DepEdge) (a : Nat) (t : Str),
        addDependency es a a t = .error .selfDependency) := by
  refine ⟨fun es h => reachableD_invariants h, ?_, ?_⟩
  · intro es a b t hab ⟨e, he, h1, h2⟩
    have hany : es.any (fun e => e.fromId == a && e.toId == b) = true := by
      rw [List.any_eq_true]
      exact ⟨e, he, by simp [h1, h2]⟩
    simp [addDependency, hab, hany]
  · intro es a t
    simp [addDependency]

/-- Witness for claim C5: a store built by two validated insertions has
the invariants, a duplicate pair is rejected, a self edge is rejected. -/
theorem claim_C5_witness :
    ((∀ e ∈ ([{ fromId := 3, toId := 1, depType := "explicit".data },
              { fromId := 1, toId := 2, depType := "implicit".data }] :
        List DepEdge), e.fromId ≠ e.toId) ∧
      (([{ fromId := 3, toId := 1, depType := "explicit".data },
         { fromId := 1, toId := 2, depType := "implicit".data }] :
        List DepEdge).map (fun e => (e.fromId, e.toId))).Nodup)
    ∧ addDependency
        [{ fromId := 3, toId := 1, depType := "explicit".data },
         { fromId := 1, toId := 2, depType := "implicit".data }]
        1 2 "explicit".data = .error .duplicateEdge
    ∧ addDependency
        [{ fromId := 3, toId := 1, depType := "explicit".data },
         { fromId := 1, toId := 2, depType := "implicit".data }]
        7 7 "implicit".data = .error .selfDependency := by
  have h1 : addDependency [] 1 2 "implicit".data =
      .ok [{ fromId := 1, toId := 2, depType := "implicit".data }] := by rfl
  have h2 : addDependency
      [{ fromId := 1, toId := 2, depType := "implicit".data }]
      3 1 "explicit".data =
      .ok [{ fromId := 3, toId := 1, depType := "explicit".data },
           { fromId := 1, toId := 2, depType := "implicit".data }] := by rfl
  refine ⟨claim_C5_edge_set_invariants.1 _
      (ReachableD.add (ReachableD.add ReachableD.empty h1) h2),
    claim_C5_edge_set_invariants.2.1 _ 1 2 _ (by decide)
      ⟨{ fromId := 1, toId := 2, depType := "implicit".data },
        List.mem_cons_of_mem _ (List.Mem.head _), rfl, rfl⟩,
    claim_C5_edge_set_invariants.2.2 _ 7 _⟩


theorem parentOf_cons_self (s : Store) (row : ResourceRow) :
    parentOf (row :: s) row.id = row.parent := by
  unfold parentOf findRow
  rw [List.find?_cons_of_pos _ (by simp)]

theorem parentOf_cons_ne {s : Store} {row : ResourceRow} {x : Nat}
    (hx : x ≠ row.id) : parentOf (row :: s) x = parentOf s x := by
  unfold parentOf findRow
  rw [List.find?_cons_of_neg _ (by simpa using Ne.symm hx)]

/-- Finding the row just written by `setRow`. -/
theorem findRow_setRow_self : ∀ (s : Store) (row : ResourceRow),
    row.id ∈ keys s → findRow (setRow s row) row.id = some row := by
  intro s row
  induction s with
  | nil => intro h; simp [keys] at h
  | cons r rest ih =>
    intro h
    by_cases hr : r.id = row.id
    · unfold setRow findRow
      rw [List.map_cons, if_pos hr, List.find?_cons_of_pos _ (by simp)]
    · unfold setRow findRow
      rw [List.map_cons, if_neg hr, List.find?_cons_of_neg _ (by simpa using hr)]
      have hmem : row.id ∈ keys rest := by
        simp only [keys, List.map_cons, List.mem_cons] at h
        rcases h with h | h
        · exact absurd h.symm hr
        · exact h
      exact ih hmem

/-- Finding a freshly prepended row. -/
theorem findRow_cons_self (s : Store) (row : ResourceRow) :
    findRow (row :: s) row.id = some row := by
  unfold findRow
  rw [List.find?_cons_of_pos _ (by simp)]

theorem findRow_setRow_ne {s : Store} {row : ResourceRow} {x : Nat}
    (hx : x ≠ row.id) : findRow (setRow s row) x = findRow s x := by
  induction s with
  | nil => rfl
  | cons r rest ih =>
    unfold setRow findRow at ih ⊢
    rw [List.map_cons]
    by_cases hr : r.id = row.id
    · rw [if_pos hr]
      rw [List.find?_cons_of_neg _ (by simpa using Ne.symm hx),
        List.find?_cons_of_neg _ (by simp [hr]; exact Ne.symm (hr ▸ hx))]
      exact ih
    · rw [if_neg hr]
      by_cases hrx : r.id = x
      · rw [List.find?_cons_of_pos _ (by simp [hrx]),
          List.find?_cons_of_pos _ (by simp [hrx])]
      · rw [List.find?_cons_of_neg _ (by simpa using hrx),
          List.find?_cons_of_neg _ (by simpa using hrx)]
        exact ih

theorem parentOf_setRow_self {s : Store} {row : ResourceRow}
    (hmem : row.id ∈ keys s) :
    parentOf (setRow s row) row.id = row.parent := by
  unfold parentOf
  rw [findRow_setRow_self s row hmem]

theorem parentOf_setRow_ne {s : Store} {row : ResourceRow} {x : Nat}
    (hx : x ≠ row.id) : parentOf (setRow s row) x = parentOf s x := by
  unfold parentOf
  rw [findRow_setRow_ne hx]

theorem keys_setRow (s : Store) (row : ResourceRow) :
    keys (setRow s row) = keys s := by
  unfold keys setRow
  rw [List.map_map]
  apply List.map_congr_left
  intro r _
  by_cases hr : r.id = row.id
  · simp [hr]
  · simp [hr]

theorem parentOf_mem_keys {s : Store} (hpo : ParentsOk s) {x p : Nat}
    (h : parentOf s x = some p) : p ∈ keys s := by
  unfold parentOf at h
  cases hf : findRow s x with
  | none => rw [hf] at h; cases h
  | some r =>
    rw [hf] at h
    unfold findRow at hf
    exact hpo r (List.mem_of_find?_eq_some hf) p h

/-- A completed circular-reference walk certifies that the chain from the
start avoids every initially visited node and ends at null. -/
theorem walkCheck_avoid (s : Store) : ∀ (fuel : Nat) (visited : List Nat)
    (cur : Option Nat), walkCheck s fuel visited cur = true →
    ∀ v ∈ visited, AvoidChain s v cur := by
  intro fuel
  induction fuel with
  | zero =>
    intro visited cur h v hv
    cases cur with
    | none => exact .nil
    | some c => simp [walkCheck] at h
  | succ fuel ih =>
    intro visited cur h v hv
    cases cur with
    | none => exact .nil
    | some c =>
      simp only [walkCheck] at h
      split_ifs at h with hc
      refine .cons c (fun heq => hc (heq ▸ hv)) ?_
      have := ih (c :: visited) (parentOf s c) h v (List.mem_cons_of_mem _ hv)
      exact this

theorem reaches_trans {s : Store} : ∀ {a b c : Nat},
    reaches s a b → reaches s b c → reaches s a c := by
  intro a b c hab
  induction hab with
  | refl a => intro h; exact h
  | step a d b h1 _ ih => intro h; exact .step a d c h1 (ih h)

theorem reaches_snoc {s : Store} : ∀ {a b c : Nat},
    reaches s a b → parentOf s b = some c → reaches s a c := by
  intro a b c hab
  induction hab with
  | refl a => intro h; exact .step a c c h (.refl c)
  | step a d b h1 _ ih => intro h; exact .step a d c h1 (ih h)

theorem reaches_last_edge {s : Store} : ∀ {a b : Nat},
    reaches s a b → a ≠ b → ∃ u, parentOf s u = some b := by
  intro a b h
  induction h with
  | refl a => intro h; exact absurd rfl h
  | step a c b h1 _ ih =>
    intro _
    by_cases hcb : c = b
    · exact ⟨a, hcb ▸ h1⟩
    · exact ih hcb

/-- Rotation: on a cycle, reachability runs both ways. -/
theorem reaches_back_of_selfAnc {s : Store} : ∀ {z x : Nat},
    reaches s z x → SelfAnc s z → reaches s x z := by
  intro z x hzx
  induction hzx with
  | refl a => intro _; exact .refl a
  | step a c b h1 _ ih =>
    intro hself
    obtain ⟨w, hw, hrw⟩ := hself
    have hwc : w = c := Option.some.inj (hw.symm.trans h1)
    subst hwc
    have hselfc : SelfAnc s w := by
      cases hrw with
      | refl _ => exact ⟨_, h1, .refl _⟩
      | step a' c' b' h1' h2' => exact ⟨c', h1', reaches_snoc h2' h1⟩
    exact reaches_trans (ih hselfc) hrw

/-- A successful model create prepends the row, and the id was fresh. -/
theorem createResource_ok {s : Store} {row : ResourceRow} {s' : Store}
    (h : createResource s row = .ok s') :
    s' = row :: s ∧ row.id ∉ keys s := by
  unfold createResource at h
  cases hc : cleanRow s row with
  | some e => rw [hc] at h; cases h
  | none =>
    rw [hc] at h
    split_ifs at h with hdup
    injection h with hes
    exact ⟨hes.symm, hdup⟩

/-- A successful update overwrites the row in place, and the id existed. -/
theorem updateResource_ok {s : Store} {row : ResourceRow} {s' : Store}
    (h : updateResource s row = .ok s') :
    s' = setRow s row ∧ row.id ∈ keys s := by
  unfold updateResource at h
  split_ifs at h with hmem
  cases hc : cleanRow s row with
  | some e => rw [hc] at h; cases h
  | none =>
    rw [hc] at h
    injection h with hes
    exact ⟨hes.symm, hmem⟩

/-- After an update of `row`, a node on the certified avoiding chain never
reaches the updated row. -/
theorem avoid_reaches_ne {s : Store} {row : ResourceRow} : ∀ {c b : Nat},
    AvoidChain s row.id (some c) → reaches (setRow s row) c b →
    b ≠ row.id := by
  intro c b hav hr
  revert hav
  induction hr with
  | refl a =>
    intro hav
    cases hav with
    | cons _ hne _ => exact hne
  | step a d b h1 _ ih =>
    intro hav
    cases hav with
    | cons _ hne htail =>
      rw [parentOf_setRow_ne hne] at h1
      rw [h1] at htail
      exact ih htail

/-- A chain in the updated store that stays away from the updated row is a
chain of the original store. -/
theorem reaches_setRow_to_orig {s : Store} {row : ResourceRow} :
    ∀ {c b : Nat}, reaches (setRow s row) c b →
    (∀ w, reaches (setRow s row) c w → w ≠ row.id) → reaches s c b := by
  intro c b hr
  induction hr with
  | refl a => intro _; exact .refl a
  | step a d b h1 h2 ih =>
    intro hw
    have hax : a ≠ row.id := hw a (.refl a)
    have h1s : parentOf s a = some d := by
      rw [← parentOf_setRow_ne hax]; exact h1
    refine .step a d b h1s (ih ?_)
    intro w hrw
    exact hw w (.step a d w h1 hrw)

/-- Nothing in the extended store points at a freshly inserted id. -/
theorem no_edge_to_fresh {s : Store} {row : ResourceRow}
    (hfresh : row.id ∉ keys s) (hpo : ParentsOk s)
    (hparent : row.parent = none ∨ ∃ q, row.parent = some q ∧ q ∈ keys s) :
    ∀ a b, parentOf (row :: s) a = some b → b ≠ row.id := by
  intro a b h
  by_cases ha : a = row.id
  · subst ha
    rw [parentOf_cons_self] at h
    rcases hparent with hn | ⟨q, hq, hqk⟩
    · rw [hn] at h; cases h
    · have hbq : b = q := Option.some.inj (h.symm.trans hq)
      subst hbq
      intro heq
      exact hfresh (heq ▸ hqk)
  · rw [parentOf_cons_ne ha] at h
    have := parentOf_mem_keys hpo h
    intro heq
    exact hfresh (heq ▸ this)

/-- A chain in the extended store starting away from the fresh id is a
chain of the original store. -/
theorem reaches_cons_of_ne {s : Store} {row : ResourceRow}
    (hfresh : row.id ∉ keys s) (hpo : ParentsOk s)
    (hparent : row.parent = none ∨ ∃ q, row.parent = some q ∧ q ∈ keys s) :
    ∀ {a b : Nat}, reaches (row :: s) a b → a ≠ row.id → reaches s a b := by
  intro a b h
  induction h with
  | refl a => intro _; exact .refl a
  | step a c b h1 _ ih =>
    intro ha
    have hc : c ≠ row.id := no_edge_to_fresh hfresh hpo hparent a c h1
    rw [parentOf_cons_ne ha] at h1
    exact .step a c b h1 (ih hc)

/-- A successful model create passed validation. -/
theorem createResource_ok_clean {s : Store} {row : ResourceRow} {s' : Store}
    (h : createResource s row = .ok s') : cleanRow s row = none := by
  unfold createResource at h
  cases hc : cleanRow s row with
  | some e => rw [hc] at h; cases h
  | none => rfl

/-- A successful update passed validation. -/
theorem updateResource_ok_clean {s : Store} {row : ResourceRow} {s' : Store}
    (h : updateResource s row = .ok s') : cleanRow s row = none := by
  unfold updateResource at h
  split_ifs at h with hmem
  cases hc : cleanRow s row with
  | some e => rw [hc] at h; cases h
  | none => rfl

/-- Validation guarantees the proposed parent, when present, is stored
(in Django this is the foreign-key object's existence). -/
theorem cleanRow_parent_keys {s : Store} {row : ResourceRow}
    (h : cleanRow s row = none) :
    row.parent = none ∨ ∃ q, row.parent = some q ∧ q ∈ keys s := by
  cases hp : row.parent with
  | none => exact .inl rfl
  | some p =>
    refine .inr ⟨p, rfl, ?_⟩
    cases hf : findRow s p with
    | none =>
      exfalso
      unfold cleanRow at h
      simp [hp, hf] at h
    | some prow =>
      unfold findRow at hf
      have hmem : prow ∈ s := List.mem_of_find?_eq_some hf
      have hid : prow.id = p := by simpa using List.find?_some hf
      exact hid ▸ List.mem_map.mpr ⟨prow, hmem, rfl⟩

/-- Validation guarantees the circular-reference walk completed. -/
theorem cleanRow_walk {s : Store} {row : ResourceRow}
    (h : cleanRow s row = none) :
    walkCheck s (s.length + 1) [row.id] row.parent = true := by
  by_cases hw : walkCheck s (s.length + 1) [row.id] row.parent = true
  · exact hw
  · exfalso
    cases hp : row.parent with
    | none => rw [hp] at hw; exact hw rfl
    | some p =>
      rw [hp] at hw
      unfold cleanRow at h
      cases hf : findRow s p with
      | none => simp [hp, hf] at h
      | some prow =>
        simp only [hp, hf] at h
        rw [if_neg (by simp)] at h
        split_ifs at h

/-- Validated creates preserve the store invariants. -/
theorem storeInv_create {s : Store} {row : ResourceRow} {s' : Store}
    (hinv : StoreInv s) (h : createResource s row = .ok s') :
    StoreInv s' := by
  obtain ⟨hs', hfresh⟩ := createResource_ok h
  have hparent := cleanRow_parent_keys (createResource_ok_clean h)
  obtain ⟨hnd, hpo, hna⟩ := hinv
  subst hs'
  refine ⟨?_, ?_, ?_⟩
  · exact List.nodup_cons.mpr ⟨hfresh, hnd⟩
  · intro r hr p hp
    rcases List.mem_cons.mp hr with hr | hr
    · subst hr
      rcases hparent with hn | ⟨q, hq, hqk⟩
      · rw [hn] at hp; cases hp
      · have : p = q := Option.some.inj (hp.symm.trans hq)
        subst this
        exact List.mem_cons_of_mem _ hqk
    · exact List.mem_cons_of_mem _ (hpo r hr p hp)
  · rintro z ⟨c, hc, hr⟩
    by_cases hz : z = row.id
    · subst hz
      have hcne : c ≠ row.id := no_edge_to_fresh hfresh hpo hparent row.id c hc
      have hrs : reaches s c row.id :=
        reaches_cons_of_ne hfresh hpo hparent hr hcne
      obtain ⟨u, hu⟩ := reaches_last_edge hrs hcne
      exact hfresh (parentOf_mem_keys hpo hu)
    · have hcne : c ≠ row.id := no_edge_to_fresh hfresh hpo hparent z c hc
      have hrs : reaches s c z :=
        reaches_cons_of_ne hfresh hpo hparent hr hcne
      rw [parentOf_cons_ne hz] at hc
      exact hna z ⟨c, hc, hrs⟩

/-- Validated updates preserve the store invariants. -/
theorem storeInv_update {s : Store} {row : ResourceRow} {s' : Store}
    (hinv : StoreInv s) (h : updateResource s row = .ok s') :
    StoreInv s' := by
  obtain ⟨hs', hmem⟩ := updateResource_ok h
  have hclean := updateResource_ok_clean h
  have hparent := cleanRow_parent_keys hclean
  have hwalk := cleanRow_walk hclean
  obtain ⟨hnd, hpo, hna⟩ := hinv
  subst hs'
  have havoid : AvoidChain s row.id row.parent :=
    walkCheck_avoid s (s.length + 1) [row.id] row.parent hwalk row.id
      (List.Mem.head _)
  refine ⟨?_, ?_, ?_⟩
  · unfold NodupKeys
    rw [keys_setRow]
    exact hnd
  · intro r hr p hp
    rw [keys_setRow]
    unfold setRow at hr
    obtain ⟨r0, hr0, hfr⟩ := List.mem_map.mp hr
    by_cases h0 : r0.id = row.id
    · have hrrow : r = row := by rw [← hfr]; simp [h0]
      subst hrrow
      rcases hparent with hn | ⟨q, hq, hqk⟩
      · rw [hn] at hp; cases hp
      · have : p = q := Option.some.inj (hp.symm.trans hq)
        subst this
        exact hqk
    · have hrr0 : r = r0 := by rw [← hfr]; simp [h0]
      subst hrr0
      exact hpo r hr0 p hp
  · have hx : ¬ SelfAnc (setRow s row) row.id := by
      rintro ⟨c, hc, hr⟩
      rw [parentOf_setRow_self hmem] at hc
      rw [hc] at havoid
      exact avoid_reaches_ne havoid hr rfl
    intro z hsz
    by_cases hz : z = row.id
    · exact hx (hz ▸ hsz)
    · obtain ⟨c, hc, hr⟩ := hsz
      by_cases hzx : reaches (setRow s row) z row.id
      · have hxz : reaches (setRow s row) row.id z :=
          reaches_back_of_selfAnc hzx ⟨c, hc, hr⟩
        cases hxz with
        | refl _ => exact hz rfl
        | step a c' b h1 h2 =>
          exact hx ⟨c', h1, reaches_trans h2 hzx⟩
      · have hcx : ∀ w, reaches (setRow s row) c w → w ≠ row.id := by
          intro w hw heq
          exact hzx (heq ▸ reaches.step z c w hc hw)
        have hrs : reaches s c z := reaches_setRow_to_orig hr hcx
        rw [parentOf_setRow_ne hz] at hc
        exact hna z ⟨c, hc, hrs⟩

/-- Removing one occurrence from a duplicate-free list by filtering
shortens it by exactly one. -/
theorem filter_ne_length : ∀ (l : List Nat) (c : Nat), l.Nodup → c ∈ l →
    (l.filter (fun k => decide (k ≠ c))).length + 1 = l.length := by
  intro l c
  induction l with
  | nil => intro _ h; cases h
  | cons a rest ih =>
    intro hnd hc
    rw [List.nodup_cons] at hnd
    by_cases hac : a = c
    · subst hac
      rw [List.filter_cons_of_neg (by simp)]
      rw [List.filter_eq_self.mpr ?_]
      · rfl
      · intro k hk
        simp only [decide_eq_true_eq]
        intro heq
        exact hnd.1 (heq ▸ hk)
    · rw [List.filter_cons_of_pos (by simp [hac])]
      have hcr : c ∈ rest := by
        rcases List.mem_cons.mp hc with h | h
        · exact absurd h.symm hac
        · exact h
      have := ih hnd.2 hcr
      simp only [List.length_cons]
      omega

/-- Visiting a new stored key decreases the unvisited count by one. -/
theorem countNotIn_cons {s : Store} (hnd : NodupKeys s) {cur : Nat}
    {seen : List Nat} (hck : cur ∈ keys s) (hcs : cur ∉ seen) :
    countNotIn s (cur :: seen) + 1 = countNotIn s seen := by
  unfold countNotIn
  have hsplit : (keys s).filter (fun k => decide (k ∉ cur :: seen)) =
      ((keys s).filter (fun k => decide (k ∉ seen))).filter
        (fun k => decide (k ≠ cur)) := by
    rw [List.filter_filter]
    apply List.filter_congr
    intro k _
    by_cases h1 : k = cur <;> by_cases h2 : k ∈ seen <;>
      simp [h1, h2, List.mem_cons]
  rw [hsplit]
  apply filter_ne_length
  · exact List.Nodup.filter _ hnd
  · exact List.mem_filter.mpr ⟨hck, by simp [hcs]⟩

/-- In a store whose keys are distinct, whose parents are stored and where
no row is its own ancestor, the chain from any unvisited stored key
reaches null within the number of still-unvisited keys. -/
theorem pigeonhole_aux {s : Store} (hnd : NodupKeys s) (hpo : ParentsOk s)
    (hna : ∀ z, ¬ SelfAnc s z) :
    ∀ (n : Nat) (seen : List Nat) (cur : Nat),
      countNotIn s seen ≤ n → cur ∈ keys s → cur ∉ seen →
      (∀ u ∈ seen, reaches s u cur) →
      reachesNone s n (some cur) = true := by
  intro n
  induction n with
  | zero =>
    intro seen cur hle hck hcs _
    exfalso
    have hmem : cur ∈ (keys s).filter (fun k => decide (k ∉ seen)) :=
      List.mem_filter.mpr ⟨hck, by simp [hcs]⟩
    have hpos : 0 < countNotIn s seen := by
      unfold countNotIn
      exact List.length_pos.mpr (List.ne_nil_of_mem hmem)
    omega
  | succ n ih =>
    intro seen cur hle hck hcs hseen
    rw [reachesNone]
    cases hp : parentOf s cur with
    | none => cases n <;> rfl
    | some d =>
      have hdk : d ∈ keys s := parentOf_mem_keys hpo hp
      have hdc : d ∉ cur :: seen := by
        intro hmem
        rcases List.mem_cons.mp hmem with hd | hd
        · subst hd
          exact hna d ⟨d, hp, .refl d⟩
        · exact hna cur ⟨d, hp, hseen d hd⟩
      have hcount : countNotIn s (cur :: seen) ≤ n := by
        have := countNotIn_cons hnd hck hcs
        omega
      refine ih (cur :: seen) d hcount hdk hdc ?_
      intro u hu
      rcases List.mem_cons.mp hu with hu | hu
      · subst hu
        exact .step u d d hp (.refl d)
      · exact reaches_snoc (hseen u hu) hp

/-- Under the store invariants every stored parent chain reaches null
within the entity count. -/
theorem chain_bounded {s : Store} (hinv : StoreInv s) :
    ∀ y ∈ keys s, reachesNone s s.length (some y) = true := by
  intro y hy
  obtain ⟨hnd, hpo, hna⟩ := hinv
  refine pigeonhole_aux hnd hpo hna s.length [] y ?_ hy (by simp)
    (by intro u hu; cases hu)
  unfold countNotIn
  calc ((keys s).filter (fun k => decide (k ∉ ([] : List Nat)))).length
      ≤ (keys s).length := List.length_filter_le _ _
    _ = s.length := by unfold keys; rw [List.length_map]

/-- Every store reachable through validated creates and updates satisfies
the invariants. -/
theorem storeInv_of_reachable : ∀ {s : Store}, ReachableS s → StoreInv s := by
  intro s h
  induction h with
  | empty =>
    refine ⟨List.nodup_nil, fun r hr => absurd hr (List.not_mem_nil r),
      fun z hz => ?_⟩
    obtain ⟨c, hc, _⟩ := hz
    simp [parentOf, findRow] at hc
  | create hprev hok ih => exact storeInv_create ih hok
  | update hprev hok ih => exact storeInv_update ih hok

/-- The aggregate part of the scan result does not depend on the log
accumulated so far. -/
theorem parseProjectAux_fst_ignores_log : ∀ (files : List TfFile)
    (a : ParseResult) (l l' : List Str),
    (parseProjectAux (a, l) files).1 = (parseProjectAux (a, l') files).1 := by
  intro files
  induction files with
  | nil => intro a l l'; rfl
  | cons f rest ih =>
    intro a l l'
    cases hf : parseFile f with
    | error e =>
      simp only [parseProjectAux, parseProjectStep, hf]
      exact ih _ _ _
    | ok parsed =>
      simp only [parseProjectAux, parseProjectStep, hf]
      exact ih _ _ _

/-- Failed files contribute nothing to the aggregate: the scan result
equals the scan of the successfully parsing files alone. -/
theorem parseProjectAux_fst_filter : ∀ (files : List TfFile)
    (a : ParseResult) (l : List Str),
    (parseProjectAux (a, l) files).1 =
      (parseProjectAux (a, l) (files.filter rawOk)).1 := by
  intro files
  induction files with
  | nil => intro a l; rfl
  | cons f rest ih =>
    intro a l
    cases hr : f.raw with
    | ok parsed =>
      have hok : rawOk f = true := by simp [rawOk, hr]
      have hpf : parseFile f = .ok parsed := by simp [parseFile, hr]
      simp only [List.filter_cons, hok, if_true, parseProjectAux,
        parseProjectStep, hpf]
      exact ih _ _
    | error e =>
      have hok : rawOk f = false := by simp [rawOk, hr]
      have hpf : parseFile f =
          .error ("Error parsing ".data ++ f.path ++ ": ".data ++ e) := by
        simp [parseFile, hr]
      simp only [List.filter_cons, hok, Bool.false_eq_true, if_false,
        parseProjectAux, parseProjectStep, hpf]
      rw [parseProjectAux_fst_ignores_log rest a (l ++ [fileFailLog f]) l]
      exact ih _ _

/-- The printed lines are exactly one record per failing file, in scan
order. -/
theorem parseProjectAux_log : ∀ (files : List TfFile)
    (a : ParseResult) (l : List Str),
    (parseProjectAux (a, l) files).2 =
      l ++ (files.filter (fun f => !rawOk f)).map fileFailLog := by
  intro files
  induction files with
  | nil => intro a l; simp [parseProjectAux]
  | cons f rest ih =>
    intro a l
    cases hr : f.raw with
    | ok parsed =>
      have hok : rawOk f = true := by simp [rawOk, hr]
      have hpf : parseFile f = .ok parsed := by simp [parseFile, hr]
      simp only [List.filter_cons, hok, Bool.not_true, Bool.false_eq_true,
        if_false, parseProjectAux, parseProjectStep, hpf]
      exact ih _ _
    | error e =>
      have hok : rawOk f = false := by simp [rawOk, hr]
      have hpf : parseFile f =
          .error ("Error parsing ".data ++ f.path ++ ": ".data ++ e) := by
        simp [parseFile, hr]
      simp only [List.filter_cons, hok, Bool.not_false, if_true,
        parseProjectAux, parseProjectStep, hpf, List.map_cons]
      rw [ih _ _, List.append_assoc, List.singleton_append]


/-- Claim C6 (counterexample): the aggregate returned to the caller of
`parse_project` is identical whether or not the project contains a failing
file, so the caller is never told which files failed or why; the failure
is only printed to stdout (the log is nonempty). -/
theorem claim_C6_counterexample :
    (parseProject [demoBadFile, demoGoodFile]).1 =
      (parseProject [demoGoodFile]).1
    ∧ (parseProject [demoBadFile, demoGoodFile]).2 ≠ [] := by
  constructor
  · rfl
  · decide

/-- Claim C6 (amended): a failing file is logged to stdout and skipped,
the scan continuing with the remaining files — the aggregate equals the
scan of the successfully parsed files, and the log holds exactly one
record per failing file in order — but no failure information is part of
the value returned to the caller. -/
theorem claim_C6_skip_log_continue :
    ∀ files : List TfFile,
      (parseProject files).1 = (parseProject (files.filter rawOk)).1 ∧
      (parseProject files).2 =
        (files.filter (fun f => !rawOk f)).map fileFailLog := by
  intro files
  constructor
  · exact parseProjectAux_fst_filter files emptyParseResult []
  · rw [parseProject, parseProjectAux_log files emptyParseResult []]
    rfl

/-- Looking up a key just replaced in place finds the new value. -/
theorem lookupField_map_replace (k : Str) (v : Value) :
    ∀ cfg : List (Str × Value), cfg.any (fun kv => kv.1 == k) = true →
    lookupField (cfg.map (fun kv => if kv.1 == k then (k, v) else kv)) k =
      some v := by
  intro cfg
  induction cfg with
  | nil => intro h; simp at h
  | cons kv rest ih =>
    intro h
    by_cases hk : (kv.1 == k) = true
    · unfold lookupField
      rw [List.map_cons, if_pos hk, List.find?_cons_of_pos _ (by simp)]
    · unfold lookupField
      rw [List.map_cons, if_neg hk, List.find?_cons_of_neg _ (by simpa using hk)]
      have hrest : rest.any (fun kv => kv.1 == k) = true := by
        rcases List.any_eq_true.mp h with ⟨e, he, hek⟩
        rcases List.mem_cons.mp he with he | he
        · exact absurd (he ▸ hek) hk
        · exact List.any_eq_true.mpr ⟨e, he, hek⟩
      exact ih hrest

/-- Looking up a key just appended to a mapping that lacked it finds the
new value. -/
theorem lookupField_append_missing (k : Str) (v : Value) :
    ∀ cfg : List (Str × Value), cfg.any (fun kv => kv.1 == k) = false →
    lookupField (cfg ++ [(k, v)]) k = some v := by
  intro cfg
  induction cfg with
  | nil => intro _; simp [lookupField, List.find?]
  | cons kv rest ih =>
    intro h
    rw [List.any_cons, Bool.or_eq_false_iff] at h
    unfold lookupField
    rw [List.cons_append, List.find?_cons_of_neg _ (by simp [h.1])]
    exact ih h.2

/-- Python `d[k] = v` makes `d[k]` yield `v`. -/
theorem lookupField_setField (k : Str) (v : Value) (cfg : List (Str × Value)) :
    lookupField (setField cfg k v) k = some v := by
  unfold setField
  split_ifs with h
  · exact lookupField_map_replace k v cfg h
  · exact lookupField_append_missing k v cfg (Bool.eq_false_iff.mpr h)

/-- When `egress` is absent or falsy, injection stores the default rule. -/
theorem inject_lookup_default (cfg : List (Str × Value))
    (h : lookupField cfg "egress".data = none ∨
      ∃ v, lookupField cfg "egress".data = some v ∧ pyTruthy v = false) :
    lookupField (injectDefaultEgress cfg) "egress".data = some defaultEgress := by
  rcases h with h | ⟨v, hv, hf⟩
  · simp only [injectDefaultEgress, h]
    exact lookupField_setField _ _ _
  · simp only [injectDefaultEgress, hv, hf, Bool.false_eq_true, if_false]
    exact lookupField_setField _ _ _

/-- When `egress` is present and truthy, injection is the identity. -/
theorem inject_truthy (cfg : List (Str × Value)) (v : Value)
    (hv : lookupField cfg "egress".data = some v) (ht : pyTruthy v = true) :
    injectDefaultEgress cfg = cfg := by
  simp only [injectDefaultEgress, hv, ht, if_true]

/-- The two possible outcomes of a successful serializer create: the
security-group path stores the injected configuration, every other path
stores the row unchanged. -/
theorem serializerCreate_ok {s : Store} {row : ResourceRow} {s' : Store}
    (h : serializerCreate s row = .ok s') :
    (row.resource_type = "aws_security_group".data ∧
      s' = setRow (row :: s)
        { row with configuration := injectDefaultEgress row.configuration })
    ∨ (row.resource_type ≠ "aws_security_group".data ∧ s' = row :: s) := by
  unfold serializerCreate at h
  cases hcr : createResource s row with
  | error e => rw [hcr] at h; cases h
  | ok s1 =>
    rw [hcr] at h
    obtain ⟨hs1, _⟩ := createResource_ok hcr
    split_ifs at h with hsg
    · injection h with hes
      exact .inl ⟨hsg, by rw [← hes, hs1]⟩
    · injection h with hes
      exact .inr ⟨hsg, by rw [← hes, hs1]⟩

/-- Claim C8: creating an `aws_security_group` whose configuration lacks
an `egress` key (or has a falsy one) stores a configuration whose `egress`
is the one-entry allow-all-outbound default; an explicit truthy egress
list, and every non-security-group create, store the configuration
unchanged; updates never inject. -/
theorem claim_C8_sg_default_egress :
    (∀ (s : Store) (row : ResourceRow) (s' : Store),
        row.resource_type = "aws_security_group".data →
        (lookupField row.configuration "egress".data = none ∨
          ∃ v, lookupField row.configuration "egress".data = some v ∧
            pyTruthy v = false) →
        serializerCreate s row = .ok s' →
        configOf s' row.id = some (injectDefaultEgress row.configuration) ∧
        lookupField (injectDefaultEgress row.configuration) "egress".data =
          some defaultEgress)
    ∧ (∀ (s : Store) (row : ResourceRow) (s' : Store) (v : Value),
        lookupField row.configuration "egress".data = some v →
        pyTruthy v = true →
        serializerCreate s row = .ok s' →
        configOf s' row.id = some row.configuration)
    ∧ (∀ (s : Store) (row : ResourceRow) (s' : Store),
        row.resource_type ≠ "aws_security_group".data →
        serializerCreate s row = .ok s' →
        configOf s' row.id = some row.configuration)
    ∧ (∀ (s : Store) (row : ResourceRow) (s' : Store),
        serializerUpdate s row = .ok s' →
        configOf s' row.id = some row.configuration) := by
  have hsg_config : ∀ (s : Store) (row : ResourceRow) (s' : Store),
      serializerCreate s row = .ok s' →
      row.resource_type = "aws_security_group".data →
      configOf s' row.id = some (injectDefaultEgress row.configuration) := by
    intro s row s' h hsg
    rcases serializerCreate_ok h with ⟨_, hs⟩ | ⟨hne, _⟩
    · rw [hs]
      unfold configOf
      have hmem : row.id ∈ keys (row :: s) := by simp [keys]
      have := findRow_setRow_self (row :: s)
        { row with configuration := injectDefaultEgress row.configuration } hmem
      rw [this]
      rfl
    · exact absurd hsg hne
  have hplain_config : ∀ (s : Store) (row : ResourceRow) (s' : Store),
      serializerCreate s row = .ok s' →
      row.resource_type ≠ "aws_security_group".data →
      configOf s' row.id = some row.configuration := by
    intro s row s' h hne
    rcases serializerCreate_ok h with ⟨hsg, _⟩ | ⟨_, hs⟩
    · exact absurd hsg hne
    · rw [hs]
      unfold configOf
      rw [findRow_cons_self]
      rfl
  refine ⟨?_, ?_, ?_, ?_⟩
  · intro s row s' hsg hmiss h
    exact ⟨hsg_config s row s' h hsg,
      inject_lookup_default row.configuration hmiss⟩
  · intro s row s' v hv ht h
    by_cases hsg : row.resource_type = "aws_security_group".data
    · rw [hsg_config s row s' h hsg, inject_truthy row.configuration v hv ht]
    · exact hplain_config s row s' h hsg
  · intro s row s' hne h
    exact hplain_config s row s' h hne
  · intro s row s' h
    obtain ⟨hs, hmem⟩ := updateResource_ok h
    rw [hs]
    unfold configOf
    rw [findRow_setRow_self s row hmem]
    rfl

/-- Witness for claim C8: a security group created with empty
configuration stores the default egress; a non-security-group create
stores its configuration untouched. -/
theorem claim_C8_witness :
    (configOf [{ id := 0, resource_type := "aws_security_group".data,
                 parent := none,
                 configuration := [("egress".data, defaultEgress)] }] 0 =
      some (injectDefaultEgress []) ∧
     lookupField (injectDefaultEgress []) "egress".data = some defaultEgress)
    ∧ configOf [{ id := 1, resource_type := "aws_vpc".data, parent := none,
                  configuration := [("cidr_block".data, .vStr "10.0.0.0/16".data)] }] 1 =
      some [("cidr_block".data, .vStr "10.0.0.0/16".data)] := by
  constructor
  · exact claim_C8_sg_default_egress.1 []
      { id := 0, resource_type := "aws_security_group".data, parent := none,
        configuration := [] } _ rfl (.inl rfl) (by rfl)
  · exact claim_C8_sg_default_egress.2.2.1 []
      { id := 1, resource_type := "aws_vpc".data, parent := none,
        configuration := [("cidr_block".data, .vStr "10.0.0.0/16".data)] } _
      (by decide) (by rfl)

/-- Claim C1: every create validates containment before insert — a
requires-parent type with no parent is rejected naming the valid parent
types (for `aws_instance` these include `aws_subnet`); a parent whose
allowed-children list does not contain the child type is rejected naming
the allowed children; and a create passing both checks is never rejected
on either of these grounds. -/
theorem claim_C1_containment_validated :
    (∀ (s : Store) (row : ResourceRow), row.resource_type ∈ REQUIRES_PARENT →
        row.parent = none →
        createResource s row =
          .error (.missingParent (validParentTypes row.resource_type)))
    ∧ "aws_subnet".data ∈ validParentTypes "aws_instance".data
    ∧ (∀ (s : Store) (row : ResourceRow) (p : Nat) (prow : ResourceRow),
        row.parent = some p → findRow s p = some prow →
        row.resource_type ∉ allowedChildren prow.resource_type →
        createResource s row =
          .error (.badContainment prow.resource_type
            (allowedChildren prow.resource_type)))
    ∧ (∀ (s : Store) (row : ResourceRow),
        (row.resource_type ∈ REQUIRES_PARENT → row.parent ≠ none) →
        (∀ (p : Nat) (prow : ResourceRow), row.parent = some p →
          findRow s p = some prow →
          row.resource_type ∈ allowedChildren prow.resource_type) →
        (∀ l, createResource s row ≠ .error (.missingParent l)) ∧
        (∀ t l, createResource s row ≠ .error (.badContainment t l))) := by
  refine ⟨?_, by decide, ?_, ?_⟩
  · intro s row hreq hpar
    simp [createResource, cleanRow, hreq, hpar]
  · intro s row p prow hpar hfind hnot
    simp [createResource, cleanRow, hpar, hfind, hnot]
  · intro s row h1 h2
    have hclean : cleanRow s row = none ∨ cleanRow s row = some .circular ∨
        ∃ p, cleanRow s row = some (.parentNotFound p) := by
      cases hpar : row.parent with
      | none =>
        have hnreq : row.resource_type ∉ REQUIRES_PARENT :=
          fun hm => h1 hm hpar
        left
        simp [cleanRow, hpar, hnreq]
      | some p =>
        cases hfind : findRow s p with
        | none =>
          right; right
          exact ⟨p, by simp [cleanRow, hpar, hfind]⟩
        | some prow =>
          have hin := h2 p prow hpar hfind
          by_cases hw : walkCheck s (s.length + 1) [row.id] row.parent = true
          · left
            rw [hpar] at hw
            simp [cleanRow, hpar, hfind, hin, hw]
          · right; left
            rw [hpar] at hw
            simp [cleanRow, hpar, hfind, hin, hw]
    rcases hclean with h | h | ⟨p, h⟩ <;>
      refine ⟨fun l heq => ?_, fun t l heq => ?_⟩ <;>
      · simp only [createResource, h] at heq
        first
          | (split at heq <;> simp at heq)
          | simp at heq

/-- Witness for claim C1: creating `aws_instance.i1` with no parent fails
naming `aws_subnet` among the valid parents, and creating `aws_subnet.s1`
under a stored `aws_vpc` row is rejected on neither containment ground. -/
theorem claim_C1_witness :
    createResource []
        { id := 0, resource_type := "aws_instance".data, parent := none,
          configuration := [] } =
      .error (.missingParent (validParentTypes "aws_instance".data))
    ∧ "aws_subnet".data ∈ validParentTypes "aws_instance".data
    ∧ (∀ l, createResource
        [{ id := 0, resource_type := "aws_vpc".data, parent := none,
           configuration := [] }]
        { id := 1, resource_type := "aws_subnet".data, parent := some 0,
          configuration := [] } ≠ .error (.missingParent l)) := by
  refine ⟨claim_C1_containment_validated.1 [] _ (by decide) rfl,
          claim_C1_containment_validated.2.1, ?_⟩
  have h := claim_C1_containment_validated.2.2.2
    [{ id := 0, resource_type := "aws_vpc".data, parent := none,
       configuration := [] }]
    { id := 1, resource_type := "aws_subnet".data, parent := some 0,
      configuration := [] }
    (by decide)
    (by
      intro p prow hp hf
      have hp0 : p = 0 := (Option.some.inj hp).symm
      subst hp0
      rw [show findRow
          [{ id := 0, resource_type := "aws_vpc".data, parent := none,
             configuration := ([] : List (Str × Value)) }] 0 =
          some { id := 0, resource_type := "aws_vpc".data, parent := none,
                 configuration := [] } from rfl] at hf
      cases hf
      decide)
  exact h.1


/-- Claim C2: in every store reachable through validated creates and
updates, following `parent_resource` links terminates — no entity is its
own ancestor and every stored chain reaches null within the entity count —
and the validation walk rejects a create whose proposed ancestor chain
revisits the new entity's id (or any ancestor) with the circular
validation error. -/
theorem claim_C2_parent_chains_acyclic :
    (∀ s : Store, ReachableS s →
      (∀ z, ¬ SelfAnc s z) ∧
      (∀ y ∈ keys s, reachesNone s s.length (some y) = true))
    ∧ (∀ (s : Store) (row : ResourceRow) (p : Nat) (prow : ResourceRow),
        row.parent = some p → findRow s p = some prow →
        row.resource_type ∈ allowedChildren prow.resource_type →
        walkCheck s (s.length + 1) [row.id] row.parent = false →
        createResource s row = .error .circular) := by
  constructor
  · intro s hs
    exact ⟨(storeInv_of_reachable hs).2.2,
      chain_bounded (storeInv_of_reachable hs)⟩
  · intro s row p prow hpar hfind hin hw
    rw [hpar] at hw
    simp [createResource, cleanRow, hpar, hfind, hin, hw]

/-- Witness for claim C2: in the two-row store built by validated creates,
the subnet is not its own ancestor and its chain reaches null within two
steps; proposing a subnet whose parent chain immediately revisits its own
id is rejected as circular. -/
theorem claim_C2_witness :
    (¬ SelfAnc demoStore2 1)
    ∧ reachesNone demoStore2 demoStore2.length (some 1) = true
    ∧ createResource [vpcRow0]
        { id := 0, resource_type := "aws_subnet".data, parent := some 0,
          configuration := [] } = .error .circular := by
  have h0 : createResource [] vpcRow0 = .ok [vpcRow0] := by rfl
  have h1 : createResource [vpcRow0] subnetRow1 = .ok demoStore2 := by rfl
  have hreach : ReachableS demoStore2 :=
    ReachableS.create (ReachableS.create ReachableS.empty h0) h1
  refine ⟨(claim_C2_parent_chains_acyclic.1 demoStore2 hreach).1 1,
    (claim_C2_parent_chains_acyclic.1 demoStore2 hreach).2 1 (by decide),
    claim_C2_parent_chains_acyclic.2 [vpcRow0] _ 0 vpcRow0 rfl (by rfl)
      (by decide) (by rfl)⟩

/-- Claim C3 (counterexample): the claim places the at-least-two-components
filter, and the reserved check on the first dot component, in the scanner
step. On a configuration whose only string leaf is an interpolation of the
single reserved word `var`, the code's scanner returns that one-component
reference, while a scanner following the claim's words returns nothing. -/
theorem claim_C3_counterexample :
    findRefsV (.vObj [("a".data, .vStr "$\x7bvar\x7d".data)]) = ["var".data]
    ∧ claimedScannerRefs (.vObj [("a".data, .vStr "$\x7bvar\x7d".data)]) = []
    ∧ (splitOnDot "var".data).length = 1 :=
  ⟨by rfl, by rfl, by rfl⟩

/-- Claim C3 (amended): the reference scanner returns exactly the per-leaf
interpolation matches that do not start with the literal prefixes `var.`,
`local.` or `data.`, concatenated over the string leaves in depth-first
order with duplicates preserved; no path-length filtering happens at this
stage (that check lives in `extract_dependencies`). -/
theorem claim_C3_scanner_depth_first :
    ∀ v : Value, findRefsV v = (leafStrings v).flatMap stringRefs :=
  findRefsV_eq_leaves

/-- Claim C4: dependency extraction emits, for each record and each raw
reference in its configuration that has at least two dot components,
exactly one tuple of the record's address, the first two components joined
by a dot, and the tag `implicit`; the `vpc_id` scenario yields exactly the
one edge from `aws_subnet.sub1` to `aws_vpc.main`. -/
theorem claim_C4_one_edge_per_reference :
    extractDependencies
      [{ resource_type := "aws_subnet".data,
         resource_name := "sub1".data,
         configuration := [("vpc_id".data, .vStr "$\x7baws_vpc.main.id\x7d".data)],
         file_path := "main.tf".data,
         terraform_address := "aws_subnet.sub1".data }] =
      [("aws_subnet.sub1".data, "aws_vpc.main".data, "implicit".data)]
    ∧ ∀ rs, extractDependencies rs = rs.flatMap (fun r =>
        ((findRefsF r.configuration).filter
            (fun ref => decide (2 ≤ (splitOnDot ref).length))).map
          (fun ref => (r.terraform_address, firstTwoAddress ref,
            "implicit".data))) := by
  constructor
  · rfl
  · intro rs
    unfold extractDependencies
    congr 1
    funext r
    exact depEdges_filter_shape r.terraform_address (findRefsF r.configuration)

/-- Claim C7: every record emitted for a `resource` block carries
terraform address `type.name`; every record for a `data` block carries
resource type `data.type` and address `data.type.name`; one record is
emitted per (type, name) pair occurrence, and a non-mapping body is
coerced to the empty mapping (the `broken` entry below) rather than
raising or being dropped. -/
theorem claim_C7_entity_records :
    (∀ (blocks : List HclBlock) (fp : Str) (r : ResourceRec),
        r ∈ extractResources blocks fp →
        r.terraform_address = dotJoin r.resource_type r.resource_name ∧
          r.file_path = fp)
    ∧ (∀ (blocks : List HclBlock) (fp : Str) (r : ResourceRec),
        r ∈ extractDataSources blocks fp →
        ∃ dtype, r.resource_type = "data.".data ++ dtype ∧
          r.terraform_address = "data.".data ++ dotJoin dtype r.resource_name)
    ∧ extractResources
        [[("aws_vpc".data,
            [[("main".data, .vObj [("cidr_block".data, .vStr "10.0.0.0/16".data)]),
              ("broken".data, .vStr "not-a-mapping".data)]])]] "f.tf".data =
      [{ resource_type := "aws_vpc".data, resource_name := "main".data,
         configuration := [("cidr_block".data, .vStr "10.0.0.0/16".data)],
         file_path := "f.tf".data,
         terraform_address := "aws_vpc.main".data },
       { resource_type := "aws_vpc".data, resource_name := "broken".data,
         configuration := [],
         file_path := "f.tf".data,
         terraform_address := "aws_vpc.broken".data }]
    ∧ extractDataSources
        [[("aws_ami".data, [[("ubuntu".data, .vObj [])]])]] "f.tf".data =
      [{ resource_type := "data.aws_ami".data, resource_name := "ubuntu".data,
         configuration := [], file_path := "f.tf".data,
         terraform_address := "data.aws_ami.ubuntu".data }] := by
  refine ⟨?_, ?_, by rfl, by rfl⟩
  · intro blocks fp r hr
    simp only [extractResources, List.mem_flatMap, List.mem_map] at hr
    obtain ⟨block, _, ti, _, hrest⟩ := hr
    obtain ⟨t, insts⟩ := ti
    obtain ⟨inst, _, nc, _, hrec⟩ := hrest
    obtain ⟨name, cfg⟩ := nc
    rw [← hrec]
    exact ⟨rfl, rfl⟩
  · intro blocks fp r hr
    simp only [extractDataSources, List.mem_flatMap, List.mem_map] at hr
    obtain ⟨block, _, ti, _, hrest⟩ := hr
    obtain ⟨t, insts⟩ := ti
    obtain ⟨inst, _, nc, _, hrec⟩ := hrest
    obtain ⟨name, cfg⟩ := nc
    rw [← hrec]
    exact ⟨t, rfl, rfl⟩

/-- Witness for claim C7 at a concrete record of each kind. -/
theorem claim_C7_witness :
    ({ resource_type := "aws_vpc".data, resource_name := "main".data,
       configuration := [("cidr_block".data, .vStr "10.0.0.0/16".data)],
       file_path := "f.tf".data,
       terraform_address := "aws_vpc.main".data } : ResourceRec).terraform_address =
      dotJoin "aws_vpc".data "main".data
    ∧ ∃ dtype, ("data.aws_ami".data : Str) = "data.".data ++ dtype ∧
        ("data.aws_ami.ubuntu".data : Str) =
          "data.".data ++ dotJoin dtype "ubuntu".data := by
  constructor
  · exact (claim_C7_entity_records.1
      [[("aws_vpc".data,
          [[("main".data, .vObj [("cidr_block".data, .vStr "10.0.0.0/16".data)]),
            ("broken".data, .vStr "not-a-mapping".data)]])]] "f.tf".data _
      (by rw [claim_C7_entity_records.2.2.1]; exact List.Mem.head _)).1
  · exact claim_C7_entity_records.2.1
      [[("aws_ami".data, [[("ubuntu".data, .vObj [])]])]] "f.tf".data _
      (by rw [claim_C7_entity_records.2.2.2]; exact List.Mem.head _)

/-- Claim C9: `extract_dependencies` applies neither self-edge filtering
nor deduplication — a configuration referencing the resource's own address
twice yields the self tuple twice — and self-dependency rejection happens
only at the store boundary, in the dependency model's validation. -/
theorem claim_C9_self_edges_survive_extraction :
    extractDependencies
      [{ resource_type := "aws_vpc".data,
         resource_name := "main".data,
         configuration := [("a".data, .vStr "$\x7baws_vpc.main.id\x7d".data),
                           ("b".data, .vStr "$\x7baws_vpc.main.id\x7d".data)],
         file_path := "main.tf".data,
         terraform_address := "aws_vpc.main".data }] =
      [("aws_vpc.main".data, "aws_vpc.main".data, "implicit".data),
       ("aws_vpc.main".data, "aws_vpc.main".data, "implicit".data)]
    ∧ ∀ es a t, addDependency es a a t = .error .selfDependency := by
  refine ⟨by rfl, ?_⟩
  intro es a t
  simp [addDependency]

/-- Claim C10: a `None` attribute value falls through to the generic
string conversion and renders as the bare unquoted text `None` — and only
`None` renders that way, every other value shape taking its dedicated
branch — so the generated block contains a bare `key = None` line. -/
theorem claim_C10_null_renders_bare_None :
    (∀ v : Value, formatHclValue v = "None".data ↔ v = .vNull)
    ∧ generateHclFromResources
        [{ resource_type := "aws_instance".data,
           resource_name := "i1".data,
           configuration := [("user_data".data, Value.vNull)],
           file_path := "main.tf".data,
           terraform_address := "aws_instance.i1".data }] =
      "resource \"aws_instance\" \"i1\" \x7b\n  user_data = None\n\x7d\n\n".data :=
  ⟨formatHclValue_eq_None_iff, by rfl⟩

end DynCloud
